import Mathlib

/-!
Shallow embedding of the core text-extraction engine of `extract_properties.py`
(the folios repository): the folio-registry scanner `extract_folios_from_matriculas`,
the property segmenter `extract_properties_from_pdf`, the registry-office extractor
`extract_oficina_registro`, the deed extractor `extract_escritura_from_anotacion`
and the correlator `process_properties`, together with proofs about them.

Texts are modelled as `List Char`.  Python's `re` character classes `\d`, `\s`, `\w`
are modelled over their ASCII ranges (plus the accented Spanish letters appearing in
the source's patterns, which the code's `.upper()`/`IGNORECASE` handling touches);
all inputs appearing in the source's patterns and in the concrete theorems below are
within this range.  Each regular expression of the source is compiled by hand into a
deterministic scanning function implementing Python's leftmost-match and
greedy/lazy backtracking semantics for that specific pattern; the derivations are
noted next to each definition.

Loops are written with an explicit fuel argument.  In every loop below the
exhausted-fuel result coincides with the loop's normal exit result and each fuel
unit advances the cursor by at least one position, so the fuel supplied at the top
level (the number of lines, resp. the length of the text) always suffices and the
embedding computes exactly what the Python loop computes.
-/

set_option maxRecDepth 100000

namespace Folios

abbrev Str := List Char

/-- Python `\d` (ASCII range). -/
def isDig (c : Char) : Bool := '0' ≤ c && c ≤ '9'

/-- Python `\s` (ASCII range): space, tab, newline, carriage return, vertical tab, form feed. -/
def isWs (c : Char) : Bool :=
  c = ' ' || c = '\t' || c = '\n' || c = '\r' || c = '\x0b' || c = '\x0c'

/-- ASCII uppercase letter, the class `[A-Z]`. -/
def isUp (c : Char) : Bool := 'A' ≤ c && c ≤ 'Z'

/-- Python `str.upper()` restricted to the characters the source's patterns use:
ASCII letters plus the accented Spanish letters. -/
def charUpper (c : Char) : Char :=
  if c = 'á' then 'Á' else if c = 'é' then 'É' else if c = 'í' then 'Í'
  else if c = 'ó' then 'Ó' else if c = 'ú' then 'Ú' else if c = 'ñ' then 'Ñ'
  else if c = 'ü' then 'Ü' else c.toUpper

def upperPy (s : Str) : Str := s.map charUpper

/-- Python `\w` word character (boundary class for `\b`): ASCII alphanumerics,
underscore, and the accented Spanish letters. -/
def isWordChar (c : Char) : Bool :=
  c.isAlphanum || c = '_' ||
  c = 'á' || c = 'é' || c = 'í' || c = 'ó' || c = 'ú' || c = 'ñ' || c = 'ü' ||
  c = 'Á' || c = 'É' || c = 'Í' || c = 'Ó' || c = 'Ú' || c = 'Ñ' || c = 'Ü'

/-- Python `str.strip()` (ASCII whitespace). -/
def strip (s : Str) : Str :=
  ((s.dropWhile isWs).reverse.dropWhile isWs).reverse

/-- Drop trailing whitespace only (the effect of a trailing `\s*$`). -/
def dropTrailWs (s : Str) : Str := (s.reverse.dropWhile isWs).reverse

/-- Case-insensitive "matches the (already uppercased) literal `pat` at the start":
Python `re.match` of a literal under `IGNORECASE`. -/
def ciStarts (pat s : Str) : Bool := pat.isPrefixOf (upperPy s)

/-- Substring containment of the (already uppercased) literal `pat`:
Python `re.search` of a literal under `IGNORECASE`. -/
def ciHas (pat : Str) : Str → Bool
  | [] => pat.isEmpty
  | c :: t => pat.isPrefixOf (upperPy (c :: t)) || ciHas pat t

/-- Python `'\n'.split` of `str.split('\n')`: split on every newline, keeping
empty pieces. -/
def splitNl : Str → List Str
  | [] => [[]]
  | c :: t =>
    if c = '\n' then [] :: splitNl t
    else match splitNl t with
      | [] => [[c]]
      | h :: r => (c :: h) :: r

/-- Python `' '.join`. -/
def joinSpace : List Str → Str
  | [] => []
  | [x] => x
  | x :: xs => x ++ ' ' :: joinSpace xs

/-- Python `str.split()` with no argument: split on whitespace runs, dropping
empty pieces.  `acc` holds the reversed current token. -/
def splitWsGo (acc : Str) : Str → List Str
  | [] => if acc.isEmpty then [] else [acc.reverse]
  | c :: t =>
    if isWs c then
      if acc.isEmpty then splitWsGo [] t else acc.reverse :: splitWsGo [] t
    else splitWsGo (c :: acc) t

def splitWs (s : Str) : List Str := splitWsGo [] s

/-- Collapse each whitespace run to a single space: `re.sub(r'\s+', ' ', s)`.
`prevWs` records whether the previous character was whitespace. -/
def collapseWsGo (prevWs : Bool) : Str → Str
  | [] => []
  | c :: t =>
    if isWs c then
      if prevWs then collapseWsGo true t else ' ' :: collapseWsGo true t
    else c :: collapseWsGo false t

def collapseWs (s : Str) : Str := collapseWsGo false s

/-- Association-list lookup with propositional key equality (Python `dict` access;
the embedded maps are insert-if-absent association lists). -/
def lookupS {α : Type} : List (Str × α) → Str → Option α
  | [], _ => none
  | (k, v) :: t, key => if k = key then some v else lookupS t key

/-- Python `str.zfill(3)`. -/
def zfill3 (s : Str) : Str :=
  if s.length < 3 then List.replicate (3 - s.length) '0' ++ s else s

/-- Generic leftmost `re.search`: try the single-position matcher `m` at every
suffix, earliest first (Python scans candidate start positions left to right). -/
def reSearch {α : Type} (m : Str → Option α) : Str → Option α
  | [] => m []
  | c :: t => match m (c :: t) with
    | some r => some r
    | none => reSearch m t

/-- Leftmost `re.search` returning the match's start index. -/
def searchIdx (p : Str → Bool) : Str → Option Nat
  | [] => if p [] then some 0 else none
  | c :: t =>
    if p (c :: t) then some 0
    else match searchIdx p t with
      | some k => some (k + 1)
      | none => none

/-! ## Folio-introduction detection

`pattern_folio_normal = r'(\d+)\s*->\s*(\d+)\s*[\.:\s-]+\s*(.*)'` (line 70 of the
source).  At a fixed start position the pattern is deterministic: `(\d+)` must
take the maximal digit run (giving digits back lands `\s*->` on a digit, which
fails), then `\s*` the maximal whitespace run (shrinking it lands `->` on
whitespace), then the literal `->`, then `\s*`, then the maximal digit run for
group 2.  Because `\s ⊆ [\.:\s-]`, the greedy block `\s*[\.:\s-]+\s*` consumes
exactly the maximal run of separator characters and requires it nonempty, and
`(.*)` takes the whole rest of the line (lines contain no newline). -/

/-- Separator class `[\.:\s-]`. -/
def isSep (c : Char) : Bool := c = '.' || c = ':' || c = '-' || isWs c

/-- `pattern_folio_normal` matched at a fixed position; returns
(annotation digits, folio digits, rest of line after the separator run). -/
def folioNormalAt (s : Str) : Option (Str × Str × Str) :=
  let d1 := s.takeWhile isDig
  if d1.isEmpty then none else
  match (s.dropWhile isDig).dropWhile isWs with
  | '-' :: '>' :: r =>
    let r := r.dropWhile isWs
    let d2 := r.takeWhile isDig
    if d2.isEmpty then none else
    let r2 := r.dropWhile isDig
    let sep := r2.takeWhile isSep
    if sep.isEmpty then none else some (d1, d2, r2.dropWhile isSep)
  | _ => none

/-- `re.search(pattern_folio_normal, line)`. -/
def folioNormal (line : Str) : Option (Str × Str × Str) := reSearch folioNormalAt line

/-! ## `extract_concatenated_folio` (source lines 72-152) -/

/-- The base pattern `(\d+)\s*->\s*(\d+)` at a fixed position; returns
(group 1, group 2, rest of line after group 2).  Deterministic by the same
disjointness arguments as `folioNormalAt`. -/
def folioBaseAt (s : Str) : Option (Str × Str × Str) :=
  let d1 := s.takeWhile isDig
  if d1.isEmpty then none else
  match (s.dropWhile isDig).dropWhile isWs with
  | '-' :: '>' :: r =>
    let r := r.dropWhile isWs
    let d2 := r.takeWhile isDig
    if d2.isEmpty then none else some (d1, d2, r.dropWhile isDig)
  | _ => none

/-- The property keywords of `extract_concatenated_folio` as predicates on the
remaining text, each implementing `re.search(keyword_pattern, rt, IGNORECASE)`
for the `^`-anchored keyword pattern.  `APTO\.?\s*` reduces to the prefix
`APTO` (the dot and whitespace are optional); the others are the keyword
followed by at least one whitespace character. -/
def kwWordWs (w : Str) (rt : Str) : Bool :=
  ciStarts w rt && isWs ((rt.drop w.length).headD 'x')

def kwChecks : List (Str → Bool) :=
  [ fun rt => ciStarts "APTO".toList rt
  , kwWordWs "APARTAMENTO".toList
  , kwWordWs "TORRE".toList
  , kwWordWs "LOCAL".toList
  , kwWordWs "DEPOSITO".toList
  , kwWordWs "PARQUEADERO".toList
  , kwWordWs "ETAPA".toList
  , kwWordWs "PISO".toList
  , kwWordWs "BODEGA".toList
  , kwWordWs "OFICINA".toList
  , kwWordWs "LOTE".toList
  , kwWordWs "MANZANA".toList
  , kwWordWs "CESION".toList
  , kwWordWs "CESIÓN".toList ]

/-- The keyword branch's folio match
`re.search(rf'(\d+)\s*->\s*(\d+)(?={keyword_pattern})', line, IGNORECASE)`.
Every `keyword_pattern` begins with `^`; without `re.MULTILINE` that anchor
only matches at string offset 0, so the lookahead requires the position right
after group 2 to be the beginning of the line.  We express that literally:
the base match must have consumed zero characters, which is impossible
(it consumes at least four), so this search always returns `none` and the
keyword branch of the source always falls through. -/
def kwFolioMatch (kw : Str → Bool) (line : Str) : Option (Str × Str) :=
  reSearch (fun s =>
    match folioBaseAt s with
    | some (d1, d2, rest) =>
      if line.length - rest.length = 0 && kw rest then some (d1, d2) else none
    | none => none) line

/-- The keyword loop of `extract_concatenated_folio`: for the first keyword
matching the remaining text, return the split if the lookahead search
succeeds, otherwise keep trying further keywords. -/
def kwLoop (line rt : Str) : List (Str → Bool) → Option (Str × Str × Str)
  | [] => none
  | kw :: rest =>
    if kw rt then
      match kwFolioMatch kw line with
      | some (d1, d2) => some (d1, d2, rt)
      | none => kwLoop line rt rest
    else kwLoop line rt rest

/-- Transition class `[A-Z0-9\s\-\.]`. -/
def isTrans (c : Char) : Bool := isUp c || isDig c || isWs c || c = '-' || c = '.'

/-- `re.search(r'(\d+)\s*->\s*(\d+)([A-Z][A-Z0-9\s\-\.]*)', line)` at a fixed
position: after group 2's maximal digit run an uppercase letter must follow
(shorter digit runs put a digit where `[A-Z]` is required), then group 3 is
that letter plus the maximal run of transition-class characters. -/
def transitionAt (s : Str) : Option (Str × Str × Str) :=
  match folioBaseAt s with
  | some (d1, d2, rest) =>
    match rest with
    | c :: r => if isUp c then some (d1, d2, c :: r.takeWhile isTrans) else none
    | [] => none
  | none => none

/-- Number-letter class `[A-Z0-9\s\-]`. -/
def isNumLet (c : Char) : Bool := isUp c || isDig c || isWs c || c = '-'

/-- `re.search(r'(\d+)\s*->\s*(\d+)(\d*\s*[A-Z][A-Z0-9\s\-]*)', line)` at a
fixed position.  With group 2 maximal the leading `\d*` of group 3 is empty
(the next character is not a digit); then the maximal whitespace run, a
required uppercase letter, and the maximal class run.  Giving digits back from
group 2 cannot help (the continuation then faces the same suffix), so the
maximal split is the match. -/
def numLetterAt (s : Str) : Option (Str × Str × Str) :=
  match folioBaseAt s with
  | some (d1, d2, rest) =>
    let ds := rest.takeWhile isDig
    let r1 := rest.dropWhile isDig
    let w := r1.takeWhile isWs
    match r1.dropWhile isWs with
    | c :: r2 =>
      if isUp c then some (d1, d2, ds ++ w ++ c :: r2.takeWhile isNumLet) else none
    | [] => none
  | none => none

/-- The heuristic cascade of `extract_concatenated_folio` (source lines
119-152): keyword loop, then transition match, then number-letter match
(whose group 3 gets `lstrip('0123456789').strip()`). -/
def concatNumLetter (line : Str) : Option (Str × Str × Str) :=
  match reSearch numLetterAt line with
  | some (d1, d2, g3) =>
    let ps := strip (g3.dropWhile isDig)
    if ps.isEmpty then none else some (d1, d2, ps)
  | none => none

def concatTransition (line : Str) : Option (Str × Str × Str) :=
  match reSearch transitionAt line with
  | some res => some res
  | none => concatNumLetter line

def concatFallback (line rt : Str) : Option (Str × Str × Str) :=
  match kwLoop line rt kwChecks with
  | some res => some res
  | none => concatTransition line

/-- `extract_concatenated_folio(line)` (source lines 72-152). -/
def extract_concatenated_folio (line : Str) : Option (Str × Str × Str) :=
  match reSearch folioBaseAt line with
  | none => none
  | some (_, _, afterFolio) =>
    let rt := strip afterFolio
    -- `re.match(r'^\s*[:-]\s*', rt)`: rt is stripped, so this is a head check
    if rt.headD 'x' = ':' || rt.headD 'x' = '-' then none
    else if rt.isEmpty then none
    else concatFallback line rt

/-- A line that introduces a folio (the stop condition of the assembly loop,
source line 320). -/
def isFolioLine (line : Str) : Bool :=
  (folioNormal line).isSome || (extract_concatenated_folio line).isSome

/-- The result of trying the normal pattern first and the concatenated
fallback second (source lines 204-214). -/
def detectFolio (line : Str) : Option (Str × Str × Str) :=
  match folioNormal line with
  | some r => some r
  | none => extract_concatenated_folio line

/-! ## `is_footer_or_header` (source lines 154-195)

The line is uppercased by the source before matching, and every pattern is then
searched case-insensitively, so each check is substring containment of the
uppercased pattern in the uppercased line.  The few patterns with regex syntax
(`Pagina \d+`, `ART\.\d+`, `LEY \d+`, `\* ?\* ?\*`) get dedicated matchers. -/

/-- Substring containment of `pat` followed by at least one digit
(`re.search` of a literal-plus-`\d+` pattern against the uppercased line). -/
def hasTokDig (pat : Str) : Str → Bool
  | [] => false
  | c :: t =>
    (pat.isPrefixOf (c :: t) && isDig (((c :: t).drop pat.length).headD 'x'))
    || hasTokDig pat t

/-- `re.search(r'\* ?\* ?\*', line)`: three asterisks, each pair separated by
at most one space. -/
def starAt (s : Str) : Bool :=
  match s with
  | '*' :: r =>
    (match r with
     | '*' :: r2 => (match r2 with | '*' :: _ => true | ' ' :: '*' :: _ => true | _ => false)
     | ' ' :: '*' :: r2 => (match r2 with | '*' :: _ => true | ' ' :: '*' :: _ => true | _ => false)
     | _ => false)
  | _ => false

def hasStars : Str → Bool
  | [] => false
  | c :: t => starAt (c :: t) || hasStars t

/-- The `footer_patterns` list (source lines 155-187) as checks on the
uppercased line. -/
def footerChecks : List (Str → Bool) :=
  [ fun u => ciHas "LA VALIDEZ DE ESTE DOCUMENTO".toList u
  , fun u => ciHas "CERTIFICADOS.SUPERNOTARIADO.GOV.CO".toList u
  , fun u => ciHas "SNR".toList u
  , fun u => ciHas "SUPERINTENDENCIA".toList u
  , fun u => ciHas "OFICINA DE REGISTRO".toList u
  , fun u => ciHas "CERTIFICADO DE TRADICION".toList u
  , fun u => ciHas "MATRICULA INMOBILIARIA".toList u
  , fun u => hasTokDig "PAGINA ".toList u
  , fun u => ciHas "TURNO:".toList u
  , fun u => ciHas "IMPRESO EL".toList u
  , fun u => ciHas "NO TIENE VALIDEZ SIN LA FIRMA".toList u
  , fun u => ciHas "ESTE CERTIFICADO REFLEJA".toList u
  , fun u => ciHas "HASTA LA FECHA Y HORA".toList u
  , fun u => ciHas "CERTIFICADO GENERADO CON EL PIN NO:".toList u
  , fun u => ciHas "NRO MATRÍCULA:".toList u
  , fun u => ciHas "SALVEDADES:".toList u
  , fun u => ciHas "INFORMACIÓN ANTERIOR O CORREGIDA".toList u
  , fun u => ciHas "ANOTACIÓN".toList u
  , fun u => ciHas "ANOTACION".toList u
  , fun u => ciHas "NRO CORRECCIÓN".toList u
  , fun u => ciHas "RADICACIÓN:".toList u
  , fun u => ciHas "RADICACION:".toList u
  , fun u => ciHas "CORREGIDO EN CABIDA".toList u
  , fun u => ciHas "CORREGIDO EN LINDEROS".toList u
  , fun u => ciHas "NUMERO DE DOCUMENTO".toList u
  , fun u => ciHas "VALE.".toList u
  , fun u => hasTokDig "ART.".toList u
  , fun u => hasTokDig "LEY ".toList u
  , fun u => ciHas "SE CORRIGE".toList u
  , fun u => ciHas "SE CREA".toList u
  , fun u => hasStars u ]

def is_footer_or_header (line : Str) : Bool :=
  let u := upperPy line
  footerChecks.any (fun chk => chk u)

/-! ## `looks_incomplete` (source lines 232-260)

Every indicator is of the form `\bWORD\s*$` (or `-\s*$`), searched
case-insensitively.  A match exists iff the text, after dropping trailing
whitespace, ends with the word at a word-boundary. -/

/-- The uppercased text `u` ends (after trailing whitespace) with word `w`
preceded by a non-word character or the start of the string. -/
def endsTok (w : Str) (u : Str) : Bool :=
  let t := dropTrailWs u
  w.isSuffixOf t &&
    (t.length = w.length || !(isWordChar (t.getD (t.length - w.length - 1) ' ')))

def incompleteWords : List Str :=
  [ "EN".toList, "EN EL".toList, "EN LA".toList, "EN LOS".toList, "EN LAS".toList
  , "EL".toList, "DE".toList, "DEL".toList, "LA".toList, "LAS".toList, "LOS".toList
  , "UN".toList, "UNA".toList, "PISO".toList, "TORRE".toList, "APARTAMENTO".toList
  , "LOCAL".toList, "DEPOSITO".toList, "PARQUEADERO".toList ]

def looks_incomplete (text : Str) : Bool :=
  let u := upperPy text
  incompleteWords.any (fun w => endsTok w u) || (dropTrailWs text).getLastD 'x' = '-'

/-! ## `looks_like_continuation` (source lines 262-307) -/

def ordinals : List Str :=
  [ "PRIMER".toList, "SEGUNDO".toList, "TERCER".toList, "CUARTO".toList
  , "QUINTO".toList, "SEXTO".toList, "SEPTIMO".toList, "OCTAVO".toList
  , "NOVENO".toList, "DECIMO".toList ]

def numberWords : List Str :=
  [ "UNO".toList, "DOS".toList, "TRES".toList, "CUATRO".toList, "CINCO".toList
  , "SEIS".toList, "SIETE".toList, "OCHO".toList, "NUEVE".toList, "DIEZ".toList ]

/-- `^WORD\s+SUFFIXHEAD...`: the uppercased line starts with `w`, then at least
one whitespace character, then the check `after` on the rest. -/
def startsWordWs (w : Str) (after : Str → Bool) (lu : Str) : Bool :=
  w.isPrefixOf lu &&
    (let r := lu.drop w.length
     !(r.takeWhile isWs).isEmpty && after (r.dropWhile isWs))

/-- The `continuation_patterns` list (source lines 277-292), all anchored at
the start of the uppercased stripped line. -/
def continuationChecks : List (Str → Bool) :=
  [ fun lu => ordinals.any (fun o => startsWordWs o (fun r => "PISO".toList.isPrefixOf r) lu)
  , fun lu => numberWords.any (fun n =>
      n.isPrefixOf lu && ((lu.drop n.length).dropWhile isWs).headD 'x' = '-')
  , fun lu =>
      let d := lu.takeWhile isDig
      !d.isEmpty &&
        (let r := lu.dropWhile isDig
         !(r.takeWhile isWs).isEmpty && "PISO".toList.isPrefixOf (r.dropWhile isWs))
  , startsWordWs "PISO".toList (fun r => isDig (r.headD 'x'))
  , startsWordWs "TORRE".toList (fun r => isDig (r.headD 'x'))
  , startsWordWs "APARTAMENTO".toList (fun r => isDig (r.headD 'x'))
  , startsWordWs "LOCAL".toList (fun r => isDig (r.headD 'x'))
  , startsWordWs "DEPOSITO".toList (fun r => isDig (r.headD 'x'))
  , fun lu => "PARQUEADERO".toList.isPrefixOf lu
  , fun lu => "UBICADO".toList.isPrefixOf lu
  , fun lu => "EN EL".toList.isPrefixOf lu
  , fun lu => "EN LA".toList.isPrefixOf lu
  , startsWordWs "DEL".toList (fun r => isWordChar (r.headD ' '))
  , startsWordWs "DE".toList (fun r => isWordChar (r.headD ' ')) ]

def commonWords : List Str :=
  [ "PISO".toList, "TORRE".toList, "APARTAMENTO".toList, "LOCAL".toList
  , "DEPOSITO".toList, "PARQUEADERO".toList, "UBICADO".toList ]
  ++ ordinals ++ numberWords

def looks_like_continuation (line : Str) (previousText : Str) : Bool :=
  let lu := strip (upperPy line)
  if lu.isEmpty then false
  else
    -- the previous-text PISO special case (source lines 269-274)
    (!previousText.isEmpty &&
      endsTok "PISO".toList (upperPy previousText) &&
      ((ordinals ++ numberWords).any (fun w => w.isPrefixOf lu) || isDig (lu.headD 'x')))
    || continuationChecks.any (fun chk => chk lu)
    || ((splitWs lu).length ≤ 3 && commonWords.any (fun w => ciHas w lu))

/-! ## The two small lookahead scans of the assembly loop -/

/-- The `found_useful_content` scan (source lines 350-365): look at lines
`j+1 .. min(j+4, len)-1`; a stripped, non-boilerplate, nonempty line that looks
like a continuation yields `true`; one that introduces a folio stops the scan
with `false`; anything else is skipped.  At most 3 lines are visited, which the
fuel argument (3) reflects. -/
def findUsefulGo (lines : List Str) (cur : Str) (stop : Nat) : Nat → Nat → Bool
  | 0, _ => false
  | fuel + 1, k =>
    if k < stop then
      let cl := strip (lines.getD k [])
      if !cl.isEmpty && !is_footer_or_header cl then
        if looks_like_continuation cl cur then true
        else if isFolioLine cl then false
        else findUsefulGo lines cur stop fuel (k + 1)
      else findUsefulGo lines cur stop fuel (k + 1)
    else false

def findUseful (lines : List Str) (j : Nat) (cur : Str) : Bool :=
  findUsefulGo lines cur (min (j + 4) lines.length) 3 (j + 1)

/-- The `found_continuation` scan after an empty line (source lines 387-396):
look at lines `j+1 .. min(j+5, len)-1`; a stripped, non-boilerplate, nonempty
line that looks like a continuation (with empty previous text) or introduces a
folio yields `true`. -/
def findContGo (lines : List Str) (stop : Nat) : Nat → Nat → Bool
  | 0, _ => false
  | fuel + 1, k =>
    if k < stop then
      let cl := strip (lines.getD k [])
      if !cl.isEmpty && !is_footer_or_header cl then
        if looks_like_continuation cl [] || isFolioLine cl then true
        else findContGo lines stop fuel (k + 1)
      else findContGo lines stop fuel (k + 1)
    else false

def findContinuation (lines : List Str) (j : Nat) : Bool :=
  findContGo lines (min (j + 5) lines.length) 4 (j + 1)

/-! ## Post-assembly cleanup (source lines 429-496)

Each `footer_cleanup_patterns` entry has the shape
`\s*PHRASE.*$` (the first also requires a hyphen: `\s*-\s*PHRASE.*$`).
The joined property text contains no newline, so `.*$` swallows everything
from the match to the end; `re.sub` removes the single leftmost match, which
starts at the earliest position from which optional whitespace (and the
optional hyphen) leads into the phrase. -/

/-- Does the cleanup pattern (hyphen flag + phrase check) match starting
exactly at suffix `s`? -/
def cutAt (withHyphen : Bool) (m : Str → Bool) (s : Str) : Bool :=
  let s1 := s.dropWhile isWs
  if withHyphen then
    match s1 with
    | '-' :: r => m (r.dropWhile isWs)
    | _ => false
  else m s1

/-- Remove from the leftmost position where the cleanup pattern matches to the
end of the text (`re.sub(pattern, '', text)` for a `.*$`-terminated pattern). -/
def removeTailGo (withHyphen : Bool) (m : Str → Bool) (text : Str) : Nat → Str → Str
  | pos, [] => if cutAt withHyphen m [] then text.take pos else text
  | pos, c :: t =>
    if cutAt withHyphen m (c :: t) then text.take pos
    else removeTailGo withHyphen m text (pos + 1) t

def removeTail (withHyphen : Bool) (m : Str → Bool) (text : Str) : Str :=
  removeTailGo withHyphen m text 0 text

/-- Case-insensitive phrase-at-start check for cleanup patterns. -/
def phr (pat : Str) (s : Str) : Bool := ciStarts pat s

/-- Phrase followed by at least one digit (`PHRASE\d+`-shaped cleanup patterns). -/
def phrDig (pat : Str) (s : Str) : Bool :=
  ciStarts pat s && isDig ((s.drop pat.length).headD 'x')

/-- The `footer_cleanup_patterns` list (source lines 436-467), in order. -/
def footerCleanups : List (Bool × (Str → Bool)) :=
  [ (true,  phr "OFICINA DE REGISTRO".toList)
  , (false, phr "OFICINA DE REGISTRO".toList)
  , (false, phr "CERTIFICADO DE TRADICION".toList)
  , (false, phr "MATRICULA INMOBILIARIA".toList)
  , (false, phr "LA VALIDEZ DE ESTE DOCUMENTO".toList)
  , (false, phr "CERTIFICADOS.SUPERNOTARIADO.GOV.CO".toList)
  , (false, phr "CERTIFICADO GENERADO CON EL PIN NO:".toList)
  , (false, phr "NRO MATRÍCULA:".toList)
  , (false, phrDig "PAGINA ".toList)
  , (false, phr "TURNO:".toList)
  , (false, phr "IMPRESO EL".toList)
  , (false, phr "NO TIENE VALIDEZ".toList)
  , (false, phr "ESTE CERTIFICADO REFLEJA".toList)
  , (false, phr "HASTA LA FECHA Y HORA".toList)
  , (false, phr "SNR".toList)
  , (false, phr "SUPERINTENDENCIA".toList)
  , (false, phr "SALVEDADES:".toList)
  , (false, phr "INFORMACIÓN ANTERIOR O CORREGIDA".toList)
  , (false, phr "ANOTACIÓN".toList)
  , (false, phr "ANOTACION".toList)
  , (false, phr "NRO CORRECCIÓN".toList)
  , (false, phr "NRO CORRECCION".toList)
  , (false, phr "RADICACIÓN:".toList)
  , (false, phr "RADICACION:".toList)
  , (false, phr "CORREGIDO EN CABIDA".toList)
  , (false, phr "CORREGIDO EN LINDEROS".toList)
  , (false, phr "NUMERO DE DOCUMENTO".toList)
  , (false, phr "VALE.".toList)
  , (false, phrDig "ART.".toList)
  , (false, phrDig "LEY ".toList) ]

def applyFooterCleanups (text : Str) : Str :=
  footerCleanups.foldl (fun t p => removeTail p.1 p.2 t) text

/-- Strip a trailing `= = =` separator run:
`re.sub(r'\s*-\s*(?:\s*=\s*){2,}\.?\s*$', '', s)` when `hyphenVariant`, else
`re.sub(r'(?:\s*=\s*){2,}\.?\s*$', '', s)`.  The matched suffix is, right to
left: whitespace, an optional period, then a maximal run of whitespace and `=`
containing at least two `=` (each `\s*=\s*` unit holds exactly one `=`), and
for the hyphen variant a `-` with surrounding whitespace to its left. -/
def stripEqRun (hyphenVariant : Bool) (s : Str) : Str :=
  let r := s.reverse
  let r1 := r.dropWhile isWs
  let r2 := match r1 with | '.' :: t => t | _ => r1
  let eqWs := fun c => isWs c || c = '='
  let run := r2.takeWhile eqWs
  let r3 := r2.dropWhile eqWs
  if 2 ≤ run.count '=' then
    if hyphenVariant then
      match r3.dropWhile isWs with
      | '-' :: r4 => (r4.dropWhile isWs).reverse
      | _ => s
    else r3.reverse
  else s

/-- The guard of source line 486:
`\b(ETAPA|...|MANZANA)\s+-\s*$` matched case-insensitively. -/
def unitWords : List Str :=
  [ "ETAPA".toList, "PISO".toList, "TORRE".toList, "APARTAMENTO".toList
  , "LOCAL".toList, "DEPOSITO".toList, "PARQUEADERO".toList, "BODEGA".toList
  , "OFICINA".toList, "LOTE".toList, "MANZANA".toList ]

def endsUnitDash (s : Str) : Bool :=
  let u := dropTrailWs (upperPy s)
  match u.reverse with
  | '-' :: r =>
    !(r.takeWhile isWs).isEmpty &&
      (let t := (r.dropWhile isWs).reverse
       unitWords.any (fun w => endsTok w t))
  | _ => false

/-- `re.sub(r'\s*[-.]+\s*$', '', s)`: drop a trailing run of hyphens/periods
together with the whitespace around it (found right to left; the maximal runs
realize the leftmost match). -/
def stripTrailDashDot (s : Str) : Str :=
  let dashDot := fun c => c = '-' || c = '.'
  let r := s.reverse.dropWhile isWs
  if (r.takeWhile dashDot).isEmpty then s
  else ((r.dropWhile dashDot).dropWhile isWs).reverse

/-- `re.sub(r'^\s*[-]+\s*', '', s)`: at offset 0 only. -/
def stripLeadDash (s : Str) : Str :=
  let s1 := s.dropWhile isWs
  match s1 with
  | '-' :: _ => (s1.dropWhile (fun c => c = '-')).dropWhile isWs
  | _ => s

/-- `re.sub(r'\d+-\d+[,\s]*$', '', s)`: a trailing matriculation number.
Right to left: a run of commas/whitespace, a nonempty digit run, a hyphen, a
nonempty digit run (all maximal, realizing the leftmost match). -/
def stripMatricula (s : Str) : Str :=
  let r1 := s.reverse.dropWhile (fun c => c = ',' || isWs c)
  if (r1.takeWhile isDig).isEmpty then s
  else
    match r1.dropWhile isDig with
    | '-' :: r3 =>
      if (r3.takeWhile isDig).isEmpty then s else (r3.dropWhile isDig).reverse
    | _ => s

/-- `re.sub(r',+$', '', s)`. -/
def stripTrailCommas (s : Str) : Str :=
  let r := s.reverse
  if r.headD 'x' = ',' then (r.dropWhile (fun c => c = ',')).reverse else s

/-- The whole cleanup pipeline (source lines 430-496), with `.strip()` applied
exactly where the source applies it. -/
def cleanupName (raw : Str) : Str :=
  let n0 := strip raw
  let n1 := applyFooterCleanups n0
  let n2 := collapseWs n1
  let n3 := strip (stripEqRun true n2)
  let n4 := strip (stripEqRun false n3)
  let n5 := if endsUnitDash n4 then n4 else strip (stripTrailDashDot n4)
  let n6 := strip (stripLeadDash n5)
  let n7 := strip (stripMatricula n6)
  strip (stripTrailCommas n7)

/-! ## The multi-line assembly loop (source lines 316-424)

State: cursor `j`, `lines_read`, `consecutive_headers`, the `is_incomplete`
flag, and the accumulated `property_parts`.  Every iteration either ends the
loop (returning `j` and the parts unchanged, exactly like Python's `break` /
loop-condition exit) or advances `j` by one, so with fuel `lines.length` the
exhausted-fuel result (which equals the normal-exit result) is only produced
when `j` has already passed the end of the line array: the embedding agrees
with the unbounded loop. -/

def innerLoop (lines : List Str) :
    Nat → Nat → Nat → Nat → Bool → List Str → Nat × List Str
  | 0, j, _, _, _, parts => (j, parts)
  | fuel + 1, j, linesRead, consecHeaders, isInc, parts =>
    if j < lines.length ∧ linesRead < 20 then
      let raw := lines.getD j []
      let nextLine := strip raw
      if isFolioLine raw then (j, parts)
      else if is_footer_or_header nextLine then
        let ch := consecHeaders + 1
        let cur := joinSpace parts
        let curInc := looks_incomplete cur
        if parts.length = 1 ∧ (strip (parts.headD [])).length < 50 then
          innerLoop lines fuel (j + 1) linesRead ch isInc parts
        else if curInc ∧ ch ≤ 5 then
          innerLoop lines fuel (j + 1) linesRead ch isInc parts
        else if !curInc then
          if findUseful lines j cur then
            innerLoop lines fuel (j + 1) linesRead ch isInc parts
          else (j, parts)
        else (j, parts)
      else
        -- consecutive_headers resets to 0 (source line 375)
        if nextLine.isEmpty then
          if isInc then innerLoop lines fuel (j + 1) linesRead 0 isInc parts
          else
            let cur := joinSpace parts
            if !looks_incomplete cur then
              if !findContinuation lines j then (j, parts)
              else innerLoop lines fuel (j + 1) linesRead 0 isInc parts
            else innerLoop lines fuel (j + 1) linesRead 0 isInc parts
        else
          let cur := joinSpace parts
          if isInc || looks_like_continuation nextLine cur || parts.isEmpty then
            let parts' := parts ++ [nextLine]
            innerLoop lines fuel (j + 1) (linesRead + 1) 0
              (looks_incomplete (joinSpace parts')) parts'
          else if !looks_incomplete cur then
            if !looks_like_continuation nextLine cur then (j, parts)
            else
              let parts' := parts ++ [nextLine]
              innerLoop lines fuel (j + 1) (linesRead + 1) 0
                (looks_incomplete (joinSpace parts')) parts'
          else innerLoop lines fuel (j + 1) linesRead 0 isInc parts
    else (j, parts)

/-! ## The outer scanning loop (source lines 197-508)

Each iteration either skips one line (`i + 1`) or processes a folio
introduction and resumes at the inner loop's final cursor `j ≥ i + 1`, so `i`
advances by at least one per fuel unit and the exhausted-fuel result (the
current maps, identical to the `i ≥ len(lines)` exit) is only produced once
`i` is past the end: fuel `lines.length` computes exactly the Python loop.
The `while/else` clause of the source only bumps the local `i` and does not
affect the returned maps. -/

def outerLoop (lines : List Str) :
    Nat → Nat → List (Str × Str) → List (Str × Str) →
    List (Str × Str) × List (Str × Str)
  | 0, _, accP, accA => (accP, accA)
  | fuel + 1, i, accP, accA =>
    if i < lines.length then
      match detectFolio (lines.getD i []) with
      | none => outerLoop lines fuel (i + 1) accP accA
      | some (num, folio, propStart) =>
        -- first occurrence of a folio wins (source lines 216-219)
        if (lookupS accP folio).isSome then outerLoop lines fuel (i + 1) accP accA
        else
          let start := strip propStart
          let r := innerLoop lines lines.length (i + 1) 0 0 (looks_incomplete start) [start]
          let name := cleanupName (joinSpace r.2)
          if name.isEmpty then outerLoop lines fuel r.1 accP accA
          else
            outerLoop lines fuel r.1 (accP ++ [(folio, name)])
              (accA ++ [(folio, zfill3 num)])
    else (accP, accA)

/-- `extract_properties_from_pdf(pdf_text)` (source lines 38-510): returns the
folio → property-name map and the folio → annotation-number map, as
insertion-ordered association lists. -/
def extract_properties_from_pdf (text : Str) :
    List (Str × Str) × List (Str × Str) :=
  let lines := splitNl text
  outerLoop lines lines.length 0 [] []

/-! ## `extract_oficina_registro` (source lines 513-564)

The pattern is
`OFICINA DE REGISTRO DE INSTRUMENTOS PUBLICOS DE\s+([A-ZÁÉÍÓÚÑ\s]+?)(?:\s*\n|CERTIFICADO|MATRICULA|$)`
under `IGNORECASE | MULTILINE`.  After the literal anchor, the greedy `\s+`
prefers the maximal whitespace run and backtracks towards shorter runs; the
lazy group takes class characters one at a time, stopping at the first
position where the closing alternation matches.  `\s*\n` matches at a position
iff the maximal whitespace run there contains a newline, and under `MULTILINE`
the `$` alternative matches at the end or before a newline (subsumed by the
first alternative except at the very end). -/

/-- The group class `[A-ZÁÉÍÓÚÑ\s]` under `IGNORECASE`. -/
def officeClass (c : Char) : Bool :=
  isUp (charUpper c) ||
  charUpper c = 'Á' || charUpper c = 'É' || charUpper c = 'Í' ||
  charUpper c = 'Ó' || charUpper c = 'Ú' || charUpper c = 'Ñ' || isWs c

/-- The closing alternation `(?:\s*\n|CERTIFICADO|MATRICULA|$)`. -/
def officeAlt (s : Str) : Bool :=
  (s.takeWhile isWs).contains '\n' || ciStarts "CERTIFICADO".toList s ||
  ciStarts "MATRICULA".toList s || s.isEmpty

/-- The lazy group `([A-ZÁÉÍÓÚÑ\s]+?)`: take class characters until the
alternation matches; fail if a non-class character is hit first. -/
def officeGroupGo (acc : Str) : Str → Option Str
  | [] => none
  | c :: t =>
    if officeClass c then
      if officeAlt t then some (acc ++ [c]) else officeGroupGo (acc ++ [c]) t
    else none

/-- Backtracking over the greedy `\s+`: try consuming `k` whitespace
characters for `k` from the maximal run length down to 1. -/
def officeTryKs (rest : Str) : Nat → Option Str
  | 0 => none
  | k + 1 =>
    match officeGroupGo [] (rest.drop (k + 1)) with
    | some g => some g
    | none => officeTryKs rest k

def oficinaAnchor : Str := "OFICINA DE REGISTRO DE INSTRUMENTOS PUBLICOS DE".toList

/-- The whole office pattern at a fixed start position. -/
def oficinaAt (s : Str) : Option Str :=
  if ciStarts oficinaAnchor s then
    let rest := s.drop oficinaAnchor.length
    officeTryKs rest (rest.takeWhile isWs).length
  else none

/-- Leftmost removal for an arbitrary suffix-to-end pattern
(`re.sub(pat_to_end, '', text)`). -/
def removeWhereGo (p : Str → Bool) (text : Str) : Nat → Str → Str
  | pos, [] => if p [] then text.take pos else text
  | pos, c :: t =>
    if p (c :: t) then text.take pos else removeWhereGo p text (pos + 1) t

def removeWhere (p : Str → Bool) (text : Str) : Str :=
  removeWhereGo p text 0 text

/-- `re.sub(r'\s+(CERTIFICADO|MATRICULA).*$', '', s, IGNORECASE)` match start. -/
def cmCutAt (s : Str) : Bool :=
  !(s.takeWhile isWs).isEmpty &&
    (ciStarts "CERTIFICADO".toList (s.dropWhile isWs) ||
     ciStarts "MATRICULA".toList (s.dropWhile isWs))

/-- The fallback loop (source lines 549-562): for each line containing the
anchor, inspect the following line. -/
def oficinaFallback : List Str → Str
  | [] => []
  | line :: rest =>
    if ciHas oficinaAnchor line then
      match rest with
      | next :: _ =>
        let nl := strip next
        if !nl.isEmpty &&
            !(ciStarts "CERTIFICADO".toList nl || ciStarts "MATRICULA".toList nl) then
          let o := strip (removeWhere cmCutAt (collapseWs nl))
          if o.isEmpty then oficinaFallback rest else o
        else oficinaFallback rest
      | [] => oficinaFallback rest
    else oficinaFallback rest

def extract_oficina_registro (text : Str) : Str :=
  match reSearch oficinaAt text with
  | some g =>
    let o := strip (removeWhere cmCutAt (collapseWs (strip g)))
    if o.isEmpty then oficinaFallback (splitNl text) else o
  | none => oficinaFallback (splitNl text)

/-! ## `extract_escritura_from_anotacion` (source lines 567-613) -/

/-- `ANOTACION:\s*Nro\s+<numero_anotacion>` matched at a fixed position
(case-insensitive; the interpolated number is matched literally). -/
def anotMarkerAt (num : Str) (s : Str) : Bool :=
  ciStarts "ANOTACION:".toList s &&
    (let r := (s.drop 10).dropWhile isWs
     ciStarts "NRO".toList r &&
       (let r2 := r.drop 3
        !(r2.takeWhile isWs).isEmpty && num.isPrefixOf (r2.dropWhile isWs)))

/-- `ANOTACION:\s*Nro\s+\d{3}` at a fixed position. -/
def anotAnyAt (s : Str) : Bool :=
  ciStarts "ANOTACION:".toList s &&
    (let r := (s.drop 10).dropWhile isWs
     ciStarts "NRO".toList r &&
       (let r2 := r.drop 3
        !(r2.takeWhile isWs).isEmpty &&
          (let d := (r2.dropWhile isWs).take 3
           d.length = 3 && d.all isDig)))

def isDateSep (c : Char) : Bool := c = '-' || c = '/'

/-- One date component `\d` repeated once or twice, then a separator (hyphen
or slash): two digits then a separator, else one digit then a separator
(greedy with backtracking).  Returns (digits, separator, rest). -/
def parseDD (s : Str) : Option (Str × Char × Str) :=
  match s with
  | a :: b :: c :: r =>
    if isDig a && isDig b && isDateSep c then some ([a, b], c, r)
    else if isDig a && isDateSep b then some ([a], b, c :: r)
    else none
  | a :: b :: r => if isDig a && isDateSep b then some ([a], b, r) else none
  | _ => none

/-- The full date: component, separator, component, separator, exactly four
digits; returns the matched characters. -/
def parseDate (s : Str) : Option Str :=
  match parseDD s with
  | some (a, c1, r1) =>
    match parseDD r1 with
    | some (b, c2, r2) =>
      let y := r2.take 4
      if y.length = 4 && y.all isDig then some (a ++ c1 :: b ++ c2 :: y) else none
    | none => none
  | none => none

/-- `(DEL|DE)\s+<date>` with the alternation's backtracking: `DEL` is tried
first and `DE` only if the whole `DEL` continuation fails. -/
def parseKwDate (kw : Str) (r4 : Str) : Option Str :=
  if ciStarts kw r4 then
    let k := r4.take kw.length
    let r5 := r4.drop kw.length
    let w3 := r5.takeWhile isWs
    let r6 := r5.dropWhile isWs
    if w3.isEmpty then none
    else match parseDate r6 with
      | some dt => some (k ++ w3 ++ dt)
      | none => none
  else none

/-- The capture group `(ESCRITURA\s+\d+\s+(?:DEL|DE)\s+<date>)` at a fixed
position, case-insensitively; returns the matched characters (original case).
Whitespace/digit/letter classes are pairwise disjoint, so each greedy run is
deterministic. -/
def parseEscritura (s : Str) : Option Str :=
  if ciStarts "ESCRITURA".toList s then
    let e := s.take 9
    let r1 := s.drop 9
    let w1 := r1.takeWhile isWs
    let r2 := r1.dropWhile isWs
    if w1.isEmpty then none else
    let d := r2.takeWhile isDig
    let r3 := r2.dropWhile isDig
    if d.isEmpty then none else
    let w2 := r3.takeWhile isWs
    let r4 := r3.dropWhile isWs
    if w2.isEmpty then none else
    match parseKwDate "DEL".toList r4 with
    | some tail => some (e ++ w1 ++ d ++ w2 ++ tail)
    | none =>
      match parseKwDate "DE".toList r4 with
      | some tail => some (e ++ w1 ++ d ++ w2 ++ tail)
      | none => none
  else none

/-- `Doc:\s*( ... )` at a fixed position. -/
def escAt (s : Str) : Option Str :=
  if ciStarts "DOC:".toList s then parseEscritura ((s.drop 4).dropWhile isWs)
  else none

/-- The block slice the source computes: from the first marker for `num` up to
the next annotation marker of any number (or the end of the text). -/
def anotacionSlice (text num : Str) : Str :=
  match searchIdx (anotMarkerAt num) text with
  | none => []
  | some start =>
    let stop := match searchIdx anotAnyAt (text.drop (start + 1)) with
      | some k => start + 1 + k
      | none => text.length
    (text.drop start).take (stop - start)

def extract_escritura_from_anotacion (text num : Str) : Str :=
  match searchIdx (anotMarkerAt num) text with
  | none => []
  | some _ =>
    match reSearch escAt (anotacionSlice text num) with
    | some g => strip g
    | none => []

/-! ## `extract_folios_from_matriculas` (source lines 616-645) -/

/-- `(\d+[A-Z]?)\s*-\s*(\d+)` at a fixed position: maximal digit run, an
optional single uppercase letter (taking it when present is safe: if the match
then fails, dropping the letter puts `\s*-` on that letter and fails too),
whitespace, hyphen, whitespace, maximal digit run.  Returns (circle, folio,
rest after the match). -/
def folioPairAt (s : Str) : Option (Str × Str × Str) :=
  let d1 := s.takeWhile isDig
  if d1.isEmpty then none else
  let r1 := s.dropWhile isDig
  let p : Str × Str := match r1 with
    | c :: t => if isUp c then (d1 ++ [c], t) else (d1, r1)
    | [] => (d1, r1)
  match p.2.dropWhile isWs with
  | '-' :: r3 =>
    let r4 := r3.dropWhile isWs
    let d2 := r4.takeWhile isDig
    if d2.isEmpty then none else some (p.1, d2, r4.dropWhile isDig)
  | _ => none

/-- `re.findall`: scan left to right, continuing after each non-overlapping
match.  A successful match consumes at least four characters and a failure
advances one position, so fuel `|s|` is never exhausted before the text is. -/
def findallFolios : Nat → Str → List (Str × Str)
  | 0, _ => []
  | _ + 1, [] => []
  | fuel + 1, c :: t =>
    match folioPairAt (c :: t) with
    | some (ci, fo, rest) => (ci, fo) :: findallFolios fuel rest
    | none => findallFolios fuel t

/-- The dedup fold of the source (lines 637-643): first circle wins on a
duplicate folio, insertion order retained. -/
def folioFold : List (Str × Str) → List (Str × Str) → List Str →
    List (Str × Str) × List Str
  | [], accM, accL => (accM, accL)
  | (ci, fo) :: rest, accM, accL =>
    if (lookupS accM fo).isSome then folioFold rest accM accL
    else folioFold rest (accM ++ [(fo, ci)]) (accL ++ [fo])

def extract_folios_from_matriculas (matText : Str) :
    List (Str × Str) × List Str :=
  folioFold (findallFolios matText.length matText) [] []

/-! ## `process_properties` (source lines 648-703)

The fold also records, as a ghost trace, the list of annotation numbers on
which `extract_escritura_from_anotacion` is invoked (`calls`), so that the
caching behaviour can be stated. -/

abbrev Row := Str × Str × Str × Str

def processLoop (pdf : Str) (props anots circ : List (Str × Str)) :
    List Str → List (Str × Str) → List Row → List Str → List Str →
    List Row × List Str × List (Str × Str) × List Str
  | [], cache, rows, nf, calls => (rows, nf, cache, calls)
  | folio :: rest, cache, rows, nf, calls =>
    let c := (lookupS circ folio).getD []
    match lookupS props folio with
    | some name =>
      let an := (lookupS anots folio).getD []
      if an.isEmpty then
        processLoop pdf props anots circ rest cache
          (rows ++ [(name, c, folio, [])]) nf calls
      else
        match lookupS cache an with
        | some e =>
          processLoop pdf props anots circ rest cache
            (rows ++ [(name, c, folio, e)]) nf calls
        | none =>
          let e := extract_escritura_from_anotacion pdf an
          processLoop pdf props anots circ rest (cache ++ [(an, e)])
            (rows ++ [(name, c, folio, e)]) nf (calls ++ [an])
    | none =>
      processLoop pdf props anots circ rest cache
        (rows ++ [("NO ENCONTRADO".toList, c, folio, [])]) (nf ++ [folio]) calls

def process_properties (matText pdfText : Str) : List Row × List Str × Str :=
  let fc := extract_folios_from_matriculas matText
  let pa := extract_properties_from_pdf pdfText
  let ofi := extract_oficina_registro pdfText
  let out := processLoop pdfText pa.1 pa.2 fc.1 fc.2 [] [] [] []
  (out.1, out.2.1, ofi)

/-- The ghost trace of deed-extraction invocations in one correlation run. -/
def processCalls (matText pdfText : Str) : List Str :=
  let fc := extract_folios_from_matriculas matText
  let pa := extract_properties_from_pdf pdfText
  (processLoop pdfText pa.1 pa.2 fc.1 fc.2 [] [] [] []).2.2.2

/-- Specification-side comparison definition for the deed cache (spec §4.3,
§8 "Deed memoization"): each output row computes its deed directly from
`extract_escritura_from_anotacion`, with no cache.  This follows the spec's
words and is compared against the cached implementation. -/
def rowSpecDirect (pdf : Str) (props anots circ : List (Str × Str))
    (folio : Str) : Row :=
  let c := (lookupS circ folio).getD []
  match lookupS props folio with
  | some name =>
    let an := (lookupS anots folio).getD []
    (name, c, folio,
      if an.isEmpty then [] else extract_escritura_from_anotacion pdf an)
  | none => ("NO ENCONTRADO".toList, c, folio, [])

def process_rows_spec (matText pdfText : Str) : List Row :=
  let fc := extract_folios_from_matriculas matText
  let pa := extract_properties_from_pdf pdfText
  fc.2.map (rowSpecDirect pdfText pa.1 pa.2 fc.1)

/-! ## Shape predicates for the deed citation (used to state claim C6) -/

def DateShape (dt : Str) : Prop :=
  ∃ a c1 b c2 y, dt = a ++ c1 :: b ++ c2 :: y ∧
    1 ≤ a.length ∧ a.length ≤ 2 ∧ a.all isDig ∧ isDateSep c1 ∧
    1 ≤ b.length ∧ b.length ≤ 2 ∧ b.all isDig ∧ isDateSep c2 ∧
    y.length = 4 ∧ y.all isDig

/-- The deed-citation shape `ESCRITURA <digits> (DEL|DE) <date>` up to case,
with the whitespace runs explicit. -/
def EscrituraShape (g : Str) : Prop :=
  ∃ e w1 d w2 k w3 dt,
    g = e ++ w1 ++ d ++ w2 ++ k ++ w3 ++ dt ∧
    upperPy e = "ESCRITURA".toList ∧
    w1 ≠ [] ∧ w1.all isWs ∧ d ≠ [] ∧ d.all isDig ∧ w2 ≠ [] ∧ w2.all isWs ∧
    (upperPy k = "DEL".toList ∨ upperPy k = "DE".toList) ∧
    w3 ≠ [] ∧ w3.all isWs ∧ DateShape dt

/-- The text after the filler in the repository's own first-page-bound test
`test_oficina_solo_primera_pagina`. -/
def c1Suffix : Str :=
  "OFICINA DE REGISTRO DE INSTRUMENTOS PUBLICOS DE MEDELLIN NORTE CERTIFICADO".toList

/-- The input of `test_oficina_solo_primera_pagina`: the anchor phrase appears
only after 10001 filler characters. -/
def c1FailingInput : Str := List.replicate 10001 'X' ++ c1Suffix

end Folios

namespace Folios

/-! # Theorems -/

theorem reSearch_cons_none {α : Type} {m : Str → Option α} {c : Char} {t : Str}
    (h : m (c :: t) = none) : reSearch m (c :: t) = reSearch m t := by
  simp [reSearch, h]

theorem oficinaAt_X_cons (t : Str) : oficinaAt ('X' :: t) = none := by
  simp [oficinaAt, ciStarts, oficinaAnchor, upperPy, charUpper, List.isPrefixOf]

theorem reSearch_oficina_padded :
    ∀ n, reSearch oficinaAt (List.replicate n 'X' ++ c1Suffix) =
      some "MEDELLIN NORTE ".toList
  | 0 => by decide
  | n + 1 => by
    rw [List.replicate_succ, List.cons_append,
      reSearch_cons_none (oficinaAt_X_cons _)]
    exact reSearch_oficina_padded n

theorem extract_oficina_of_some {text g : Str}
    (h : reSearch oficinaAt text = some g)
    (h2 : (strip (removeWhere cmCutAt (collapseWs (strip g)))).isEmpty = false) :
    extract_oficina_registro text =
      strip (removeWhere cmCutAt (collapseWs (strip g))) := by
  rw [extract_oficina_registro, h]
  simp [h2]

/-- C1: the spec (§4.4, §8 "Registry office first-page bound") and the
repository's own test `test_oficina_solo_primera_pagina` require
`extract_oficina_registro` to return the empty string when the anchor phrase
occurs only after the first ~10,000 characters; the code has no such window
and returns the office name anyway, for a filler of any length — in
particular for the test's 10001-character filler. -/
theorem c1_registry_office_window_missing :
    (∀ n, extract_oficina_registro (List.replicate n 'X' ++ c1Suffix) =
        "MEDELLIN NORTE".toList) ∧
    extract_oficina_registro c1FailingInput = "MEDELLIN NORTE".toList ∧
    extract_oficina_registro c1FailingInput ≠ [] := by
  have base : ∀ n, extract_oficina_registro (List.replicate n 'X' ++ c1Suffix) =
      "MEDELLIN NORTE".toList := by
    intro n
    rw [extract_oficina_of_some (reSearch_oficina_padded n) (by decide)]
    decide
  exact ⟨base, base 10001, by rw [c1FailingInput, base 10001]; decide⟩

/-- C2: end-to-end correlation of the two-folio example: the rows pair each
description with its circle and folio in folio-list order, the deed strings
are empty (the certificate has no annotation blocks), and nothing is
unmatched. -/
theorem c2_end_to_end :
    process_properties "176-0998349\n51N-123456".toList
      "3 -> 0998349 : APARTAMENTO 101 - TORRE 1\n4 -> 123456APTO 202 - TORRE 2".toList =
    ( [ ("APARTAMENTO 101 - TORRE 1".toList, "176".toList, "0998349".toList, [])
      , ("APTO 202 - TORRE 2".toList, "51N".toList, "123456".toList, []) ]
    , [], [] ) := by
  decide

/-- C3: each of the five separator variants `" : "`, `" - "`, `"."`, `".."`,
`" : - "` after the folio number yields the same property entry
`"190172" ↦ "TORRE 9"` in the segmenter's map. -/
theorem c3_separator_variants :
    lookupS (extract_properties_from_pdf "3 -> 190172 : TORRE 9".toList).1
      "190172".toList = some "TORRE 9".toList ∧
    lookupS (extract_properties_from_pdf "3 -> 190172 - TORRE 9".toList).1
      "190172".toList = some "TORRE 9".toList ∧
    lookupS (extract_properties_from_pdf "3 -> 190172.TORRE 9".toList).1
      "190172".toList = some "TORRE 9".toList ∧
    lookupS (extract_properties_from_pdf "3 -> 190172..TORRE 9".toList).1
      "190172".toList = some "TORRE 9".toList ∧
    lookupS (extract_properties_from_pdf "3 -> 190172 : - TORRE 9".toList).1
      "190172".toList = some "TORRE 9".toList := by
  refine ⟨?_, ?_, ?_, ?_, ?_⟩ <;> decide

/-- C4 counterexample: the claim asserts the property-type keywords are
recognized case-insensitively at the start of the text following the folio
digits and that the folio is split from the keyword-led description there.
On `"4 -> 230510apto 0129 - TORRE 8"` the keyword APTO does occur
case-insensitively right after the folio digits (first conjunct), yet the
segmenter records nothing at all (second conjunct): the keyword branch's
lookahead contains a beginning-of-string anchor that can never match, and the
fallback digit-to-letter transition heuristic accepts uppercase letters only. -/
theorem c4_counterexample :
    ciStarts "APTO".toList "apto 0129 - TORRE 8".toList = true ∧
    extract_properties_from_pdf "4 -> 230510apto 0129 - TORRE 8".toList = ([], []) := by
  exact ⟨by decide, by decide⟩

/-- C4 (amended): when the folio number is immediately followed by an
uppercase letter with no separator, the digit-to-letter transition heuristic
splits the folio digits from the description (the keyword list plays no
observable role and lowercase keywords are not recognized); in particular
`"4 -> 230510APTO 0129 - TORRE 8"` yields exactly the entry
`"230510" ↦ "APTO 0129 - TORRE 8"` (with annotation number `"004"`). -/
theorem c4_concatenated_split :
    extract_properties_from_pdf "4 -> 230510APTO 0129 - TORRE 8".toList =
      ( [("230510".toList, "APTO 0129 - TORRE 8".toList)]
      , [("230510".toList, "004".toList)] ) := by
  decide

/-- C5: the folio-registry parser dedups by first occurrence with the first
circle winning, and an input with no folio-pattern match yields the empty map
and list (no exception — the embedding is total). -/
theorem c5_folio_registry :
    (extract_folios_from_matriculas "176-001 176-002 176-001".toList =
      ( [("001".toList, "176".toList), ("002".toList, "176".toList)]
      , ["001".toList, "002".toList] )) ∧
    ∀ s : Str, findallFolios s.length s = [] →
      extract_folios_from_matriculas s = ([], []) := by
  refine ⟨by decide, ?_⟩
  intro s h
  rw [extract_folios_from_matriculas, h]
  rfl

/-- Witness for C5 at the matchless input `"SIN FOLIOS"`. -/
theorem c5_folio_registry_witness :
    findallFolios "SIN FOLIOS".toList.length "SIN FOLIOS".toList = [] ∧
    extract_folios_from_matriculas "SIN FOLIOS".toList = ([], []) :=
  ⟨by decide, c5_folio_registry.2 "SIN FOLIOS".toList (by decide)⟩

theorem lookupS_append_some {α : Type} {l : List (Str × α)} {k : Str} {v : α}
    (l' : List (Str × α)) (h : lookupS l k = some v) :
    lookupS (l ++ l') k = some v := by
  induction l with
  | nil => simp [lookupS] at h
  | cons p t ih =>
    rw [List.cons_append]
    rw [lookupS] at h ⊢
    split at h
    · exact h ▸ (by rw [if_pos ‹p.1 = k›])
    · rw [if_neg ‹¬ p.1 = k›]
      exact ih h

/-- Once the outer scanning loop holds a property binding, the binding
survives to the final map unchanged (the only insertion appends a fresh key). -/
theorem outerLoop_keeps_fst (lines : List Str) :
    ∀ (fuel i : Nat) (accP accA : List (Str × Str)) (k v : Str),
      lookupS accP k = some v →
      lookupS (outerLoop lines fuel i accP accA).1 k = some v := by
  intro fuel
  induction fuel with
  | zero => intro i accP accA k v h; exact h
  | succ n ih =>
    intro i accP accA k v h
    rw [outerLoop]
    split
    · split
      · exact ih _ _ _ _ _ h
      · split
        · exact ih _ _ _ _ _ h
        · dsimp only
          split
          · exact ih _ _ _ _ _ h
          · exact ih _ _ _ _ _ (lookupS_append_some _ h)
    · exact h

/-- Same preservation for the annotation map. -/
theorem outerLoop_keeps_snd (lines : List Str) :
    ∀ (fuel i : Nat) (accP accA : List (Str × Str)) (k v : Str),
      lookupS accA k = some v →
      lookupS (outerLoop lines fuel i accP accA).2 k = some v := by
  intro fuel
  induction fuel with
  | zero => intro i accP accA k v h; exact h
  | succ n ih =>
    intro i accP accA k v h
    rw [outerLoop]
    split
    · split
      · exact ih _ _ _ _ _ h
      · split
        · exact ih _ _ _ _ _ h
        · dsimp only
          split
          · exact ih _ _ _ _ _ h
          · exact ih _ _ _ _ _ (lookupS_append_some _ h)
    · exact h

/-- C8: first occurrence of a folio wins.  Any binding already present in
either accumulator of the scanning loop is still present, unchanged, in the
corresponding final map (so a second introduction of a captured folio can
never merge into or overwrite the stored description or annotation number);
and concretely, introducing `190172` twice with different descriptions
retains exactly the first description and its annotation number. -/
theorem c8_first_description_wins :
    (∀ (lines : List Str) (fuel i : Nat) (accP accA : List (Str × Str)) (k v : Str),
      lookupS accP k = some v →
      lookupS (outerLoop lines fuel i accP accA).1 k = some v) ∧
    (∀ (lines : List Str) (fuel i : Nat) (accP accA : List (Str × Str)) (k v : Str),
      lookupS accA k = some v →
      lookupS (outerLoop lines fuel i accP accA).2 k = some v) ∧
    extract_properties_from_pdf
        "3 -> 190172 : TORRE 9\n4 -> 190172 : TORRE 5".toList =
      ( [("190172".toList, "TORRE 9".toList)]
      , [("190172".toList, "003".toList)] ) :=
  ⟨fun lines => outerLoop_keeps_fst lines,
   fun lines => outerLoop_keeps_snd lines, by decide⟩

/-- Witness for C8 at a concrete loop state with one pre-existing binding. -/
theorem c8_first_description_wins_witness :
    lookupS [("A".toList, "B".toList)] "A".toList = some "B".toList ∧
    lookupS (outerLoop ["3 -> 1 : X".toList] 1 0
        [("A".toList, "B".toList)] []).1 "A".toList = some "B".toList :=
  ⟨by decide,
   c8_first_description_wins.1 ["3 -> 1 : X".toList] 1 0
     [("A".toList, "B".toList)] [] "A".toList "B".toList (by decide)⟩

/-! ## Soundness of the folio matchers: group 1 is a nonempty digit run -/

theorem folioBaseAt_digits {s : Str} {a b r : Str}
    (h : folioBaseAt s = some (a, b, r)) : a ≠ [] ∧ a.all isDig = true := by
  simp only [folioBaseAt] at h
  split at h
  · exact absurd h (by simp)
  · split at h
    · split at h
      · exact absurd h (by simp)
      · obtain ⟨rfl, -, -⟩ := Option.some.inj h
        refine ⟨?_, List.all_takeWhile⟩
        intro hnil
        simp [hnil] at *
    · exact absurd h (by simp)

theorem folioNormalAt_digits {s : Str} {a b r : Str}
    (h : folioNormalAt s = some (a, b, r)) : a ≠ [] ∧ a.all isDig = true := by
  simp only [folioNormalAt] at h
  split at h
  · exact absurd h (by simp)
  · split at h
    · split at h
      · exact absurd h (by simp)
      · split at h
        · exact absurd h (by simp)
        · obtain ⟨rfl, -, -⟩ := Option.some.inj h
          refine ⟨?_, List.all_takeWhile⟩
          intro hnil
          simp [hnil] at *
    · exact absurd h (by simp)

/-- Leftmost-search soundness: a successful search comes from some suffix. -/
theorem reSearch_some {α : Type} {m : Str → Option α} :
    ∀ {cs : Str} {r : α}, reSearch m cs = some r →
      ∃ suf : Str, suf <:+ cs ∧ m suf = some r := by
  intro cs
  induction cs with
  | nil => intro r h; exact ⟨[], List.suffix_refl _, h⟩
  | cons c t ih =>
    intro r h
    rw [reSearch] at h
    cases hm : m (c :: t) with
    | some x =>
      rw [hm] at h
      exact ⟨c :: t, List.suffix_refl _, hm.trans h⟩
    | none =>
      rw [hm] at h
      obtain ⟨suf, hs, hm2⟩ := ih h
      exact ⟨suf, hs.trans (List.suffix_cons c t), hm2⟩

theorem kwFolioMatch_digits {kw : Str → Bool} {line : Str} {a b : Str}
    (h : kwFolioMatch kw line = some (a, b)) : a ≠ [] ∧ a.all isDig = true := by
  obtain ⟨suf, -, hm⟩ := reSearch_some h
  cases heq : folioBaseAt suf with
  | none => rw [heq] at hm; exact absurd hm (by simp)
  | some t =>
    obtain ⟨d1, d2, rest⟩ := t
    rw [heq] at hm
    simp only at hm
    split at hm
    · simp only [Option.some.injEq, Prod.mk.injEq] at hm
      obtain ⟨rfl, rfl⟩ := hm
      exact folioBaseAt_digits heq
    · exact absurd hm (by simp)

theorem kwLoop_digits {line rt : Str} {a b c : Str} :
    ∀ {ks : List (Str → Bool)}, kwLoop line rt ks = some (a, b, c) →
      a ≠ [] ∧ a.all isDig = true := by
  intro ks
  induction ks with
  | nil => intro h; exact absurd h (by simp [kwLoop])
  | cons kw rest ih =>
    intro h
    rw [kwLoop] at h
    split at h
    · cases heq : kwFolioMatch kw line with
      | none => rw [heq] at h; exact ih h
      | some t =>
        obtain ⟨d1, d2⟩ := t
        rw [heq] at h
        simp only [Option.some.injEq, Prod.mk.injEq] at h
        obtain ⟨rfl, rfl, rfl⟩ := h
        exact kwFolioMatch_digits heq
    · exact ih h

theorem transitionAt_digits {s : Str} {a b c : Str}
    (h : transitionAt s = some (a, b, c)) : a ≠ [] ∧ a.all isDig = true := by
  rw [transitionAt] at h
  cases heq : folioBaseAt s with
  | none => rw [heq] at h; exact absurd h (by simp)
  | some t =>
    obtain ⟨d1, d2, rest⟩ := t
    rw [heq] at h
    simp only at h
    cases rest with
    | nil => exact absurd h (by simp)
    | cons c0 r =>
      simp only at h
      split at h
      · simp only [Option.some.injEq, Prod.mk.injEq] at h
        obtain ⟨rfl, rfl, rfl⟩ := h
        exact folioBaseAt_digits heq
      · exact absurd h (by simp)

theorem numLetterAt_digits {s : Str} {a b c : Str}
    (h : numLetterAt s = some (a, b, c)) : a ≠ [] ∧ a.all isDig = true := by
  rw [numLetterAt] at h
  cases heq : folioBaseAt s with
  | none => rw [heq] at h; exact absurd h (by simp)
  | some t =>
    obtain ⟨d1, d2, rest⟩ := t
    rw [heq] at h
    simp only at h
    cases heq2 : (rest.dropWhile isDig).dropWhile isWs with
    | nil => rw [heq2] at h; exact absurd h (by simp)
    | cons c0 r =>
      rw [heq2] at h
      simp only at h
      split at h
      · simp only [Option.some.injEq, Prod.mk.injEq] at h
        obtain ⟨rfl, rfl, rfl⟩ := h
        exact folioBaseAt_digits heq
      · exact absurd h (by simp)

theorem concatNumLetter_digits {line : Str} {a b c : Str}
    (h : concatNumLetter line = some (a, b, c)) : a ≠ [] ∧ a.all isDig = true := by
  rw [concatNumLetter] at h
  cases heq : reSearch numLetterAt line with
  | none => rw [heq] at h; exact absurd h (by simp)
  | some t =>
    obtain ⟨d1, d2, g3⟩ := t
    rw [heq] at h
    simp only at h
    split at h
    · exact absurd h (by simp)
    · simp only [Option.some.injEq, Prod.mk.injEq] at h
      obtain ⟨rfl, rfl, rfl⟩ := h
      obtain ⟨suf, -, hm⟩ := reSearch_some heq
      exact numLetterAt_digits hm

theorem concatTransition_digits {line : Str} {a b c : Str}
    (h : concatTransition line = some (a, b, c)) : a ≠ [] ∧ a.all isDig = true := by
  rw [concatTransition] at h
  cases heq : reSearch transitionAt line with
  | none => rw [heq] at h; exact concatNumLetter_digits h
  | some t =>
    rw [heq] at h
    simp only [Option.some.injEq] at h
    obtain rfl := h
    obtain ⟨suf, -, hm⟩ := reSearch_some heq
    exact transitionAt_digits hm

theorem concatFallback_digits {line rt : Str} {a b c : Str}
    (h : concatFallback line rt = some (a, b, c)) : a ≠ [] ∧ a.all isDig = true := by
  rw [concatFallback] at h
  cases heq : kwLoop line rt kwChecks with
  | none => rw [heq] at h; exact concatTransition_digits h
  | some t =>
    rw [heq] at h
    simp only [Option.some.injEq] at h
    obtain rfl := h
    exact kwLoop_digits heq

theorem concatenated_digits {line : Str} {a b c : Str}
    (h : extract_concatenated_folio line = some (a, b, c)) :
    a ≠ [] ∧ a.all isDig = true := by
  rw [extract_concatenated_folio] at h
  cases heq : reSearch folioBaseAt line with
  | none => rw [heq] at h; exact absurd h (by simp)
  | some t =>
    obtain ⟨x1, x2, afterFolio⟩ := t
    rw [heq] at h
    simp only at h
    split at h
    · exact absurd h (by simp)
    · split at h
      · exact absurd h (by simp)
      · exact concatFallback_digits h

theorem detectFolio_digits {line : Str} {a b c : Str}
    (h : detectFolio line = some (a, b, c)) : a ≠ [] ∧ a.all isDig = true := by
  rw [detectFolio] at h
  split at h
  · rename_i heq
    simp only [Option.some.injEq] at h
    obtain rfl := h
    obtain ⟨suf, -, hm⟩ := reSearch_some heq
    exact folioNormalAt_digits hm
  · exact concatenated_digits h

theorem all_replicate_zero (n : Nat) : (List.replicate n '0').all isDig = true := by
  induction n with
  | zero => rfl
  | succ k ih => rw [List.replicate_succ, List.all_cons, ih]; decide

theorem zfill3_spec {a : Str} (h1 : a ≠ []) (h2 : a.all isDig = true) :
    zfill3 a ≠ [] ∧ 3 ≤ (zfill3 a).length ∧ (zfill3 a).all isDig = true := by
  rw [zfill3]
  split
  · refine ⟨by simp [h1], ?_, ?_⟩
    · simp only [List.length_append, List.length_replicate]
      omega
    · rw [List.all_append, all_replicate_zero, h2]
      rfl
  · exact ⟨h1, by omega, h2⟩

/-- Invariant of the outer scanning loop: the two accumulators always carry
the same keys in the same order, and every stored annotation number is a
nonempty digit string of length at least 3. -/
theorem outerLoop_inv (lines : List Str) :
    ∀ (fuel i : Nat) (accP accA : List (Str × Str)),
      accP.map Prod.fst = accA.map Prod.fst →
      (∀ p ∈ accA, p.2 ≠ [] ∧ 3 ≤ p.2.length ∧ p.2.all isDig = true) →
      (outerLoop lines fuel i accP accA).1.map Prod.fst =
        (outerLoop lines fuel i accP accA).2.map Prod.fst ∧
      ∀ p ∈ (outerLoop lines fuel i accP accA).2,
        p.2 ≠ [] ∧ 3 ≤ p.2.length ∧ p.2.all isDig = true := by
  intro fuel
  induction fuel with
  | zero => intro i accP accA hk hv; exact ⟨hk, hv⟩
  | succ n ih =>
    intro i accP accA hk hv
    rw [outerLoop]
    split
    · split
      · exact ih _ _ _ hk hv
      · split
        · exact ih _ _ _ hk hv
        · dsimp only
          split
          · exact ih _ _ _ hk hv
          · rename_i num folio propStart heq hdup hne
            refine ih _ _ _ ?_ ?_
            · simp only [List.map_append, List.map_cons, List.map_nil, hk]
            · intro p hp
              rcases List.mem_append.1 hp with hold | hnew
              · exact hv p hold
              · obtain ⟨h1, h2⟩ := detectFolio_digits heq
                rcases List.mem_singleton.1 hnew with rfl
                exact zfill3_spec h1 h2
    · exact ⟨hk, hv⟩

/-- C10: the property map and the annotation map of the segmenter always have
exactly the same key sequence — a folio gets an annotation number recorded iff
it gets a description — and every recorded annotation number is a nonempty
digit string of length at least 3 (the introducing digits zero-padded to 3).
The spec's allowance (§3, PropertyRecord) of an empty annotation number next
to a captured description never occurs. -/
theorem c10_maps_aligned :
    ∀ text : Str,
      (extract_properties_from_pdf text).1.map Prod.fst =
        (extract_properties_from_pdf text).2.map Prod.fst ∧
      ∀ p ∈ (extract_properties_from_pdf text).2,
        p.2 ≠ [] ∧ 3 ≤ p.2.length ∧ p.2.all isDig = true := by
  intro text
  exact outerLoop_inv (splitNl text) (splitNl text).length 0 [] [] rfl
    (by intro p hp; exact absurd hp (List.not_mem_nil p))

/-- Witness for C10 at a one-line certificate text. -/
theorem c10_maps_aligned_witness :
    ("190172".toList, "003".toList) ∈
      (extract_properties_from_pdf "3 -> 190172 : TORRE 9".toList).2 ∧
    ("003".toList ≠ [] ∧ 3 ≤ "003".toList.length ∧
      "003".toList.all isDig = true) :=
  ⟨by decide,
   (c10_maps_aligned "3 -> 190172 : TORRE 9".toList).2
     ("190172".toList, "003".toList) (by decide)⟩

/-- Rows already accumulated by the correlation fold stay in the output. -/
theorem processLoop_rows_mono (pdf : Str) (props anots circ : List (Str × Str)) :
    ∀ (folios : List Str) (cache : List (Str × Str)) (rows : List Row)
      (nf calls : List Str) (r : Row), r ∈ rows →
      r ∈ (processLoop pdf props anots circ folios cache rows nf calls).1 := by
  intro folios
  induction folios with
  | nil => intro cache rows nf calls r hr; exact hr
  | cons folio rest ih =>
    intro cache rows nf calls r hr
    rw [processLoop]
    dsimp only
    split
    · split
      · exact ih _ _ _ _ _ (List.mem_append_left _ hr)
      · split
        · exact ih _ _ _ _ _ (List.mem_append_left _ hr)
        · exact ih _ _ _ _ _ (List.mem_append_left _ hr)
    · exact ih _ _ _ _ _ (List.mem_append_left _ hr)

/-- Folios already recorded as unmatched stay recorded. -/
theorem processLoop_nf_mono (pdf : Str) (props anots circ : List (Str × Str)) :
    ∀ (folios : List Str) (cache : List (Str × Str)) (rows : List Row)
      (nf calls : List Str) (f : Str), f ∈ nf →
      f ∈ (processLoop pdf props anots circ folios cache rows nf calls).2.1 := by
  intro folios
  induction folios with
  | nil => intro cache rows nf calls f hf; exact hf
  | cons folio rest ih =>
    intro cache rows nf calls f hf
    rw [processLoop]
    dsimp only
    split
    · split
      · exact ih _ _ _ _ _ hf
      · split
        · exact ih _ _ _ _ _ hf
        · exact ih _ _ _ _ _ hf
    · exact ih _ _ _ _ _ (List.mem_append_left _ hf)

/-- A folio of the registry list with no property record is reported in the
not-found list and as a `NO ENCONTRADO` row with empty deed. -/
theorem processLoop_not_found (pdf : Str) (props anots circ : List (Str × Str)) :
    ∀ (folios : List Str) (cache : List (Str × Str)) (rows : List Row)
      (nf calls : List Str) (folio : Str),
      folio ∈ folios → lookupS props folio = none →
      folio ∈ (processLoop pdf props anots circ folios cache rows nf calls).2.1 ∧
      ("NO ENCONTRADO".toList, (lookupS circ folio).getD [], folio, []) ∈
        (processLoop pdf props anots circ folios cache rows nf calls).1 := by
  intro folios
  induction folios with
  | nil => intro cache rows nf calls folio hmem; exact absurd hmem (List.not_mem_nil folio)
  | cons f rest ih =>
    intro cache rows nf calls folio hmem hnone
    rcases List.mem_cons.1 hmem with rfl | htail
    · rw [processLoop]
      dsimp only
      rw [hnone]
      constructor
      · exact processLoop_nf_mono pdf props anots circ _ _ _ _ _ _
          (List.mem_append_right nf (List.mem_singleton.2 rfl))
      · exact processLoop_rows_mono pdf props anots circ _ _ _ _ _ _
          (List.mem_append_right rows (List.mem_singleton.2 rfl))
    · rw [processLoop]
      dsimp only
      split
      · split
        · exact ih _ _ _ _ _ htail hnone
        · split
          · exact ih _ _ _ _ _ htail hnone
          · exact ih _ _ _ _ _ htail hnone
      · exact ih _ _ _ _ _ htail hnone

/-- C7: for every folio in the parsed folio list that the segmenter did not
capture, the correlation reports the folio in the not-found list and emits a
row whose description is the literal `NO ENCONTRADO`, whose circle comes from
the folio registry, and whose deed is empty; the embedding is total, so no
exception is possible. -/
theorem c7_not_found_propagation :
    ∀ (mat pdf folio : Str),
      folio ∈ (extract_folios_from_matriculas mat).2 →
      lookupS (extract_properties_from_pdf pdf).1 folio = none →
      folio ∈ (process_properties mat pdf).2.1 ∧
      ("NO ENCONTRADO".toList,
        (lookupS (extract_folios_from_matriculas mat).1 folio).getD [],
        folio, []) ∈ (process_properties mat pdf).1 := by
  intro mat pdf folio h1 h2
  exact processLoop_not_found pdf (extract_properties_from_pdf pdf).1
    (extract_properties_from_pdf pdf).2 (extract_folios_from_matriculas mat).1
    (extract_folios_from_matriculas mat).2 [] [] [] [] folio h1 h2

/-- Witness for C7: folio `001` is listed but absent from an empty
certificate text. -/
theorem c7_not_found_propagation_witness :
    "001".toList ∈ (extract_folios_from_matriculas "176-001".toList).2 ∧
    lookupS (extract_properties_from_pdf "".toList).1 "001".toList = none ∧
    "001".toList ∈ (process_properties "176-001".toList "".toList).2.1 ∧
    ("NO ENCONTRADO".toList, "176".toList, "001".toList, []) ∈
      (process_properties "176-001".toList "".toList).1 := by
  refine ⟨by decide, by decide, ?_⟩
  have h := c7_not_found_propagation "176-001".toList "".toList "001".toList
    (by decide) (by decide)
  have hc : (lookupS (extract_folios_from_matriculas "176-001".toList).1
      "001".toList).getD [] = "176".toList := by decide
  rw [hc] at h
  exact h

theorem lookupS_none_iff {α : Type} {l : List (Str × α)} {k : Str} :
    lookupS l k = none ↔ k ∉ l.map Prod.fst := by
  induction l with
  | nil => simp [lookupS]
  | cons p t ih =>
    obtain ⟨pk, pv⟩ := p
    rw [lookupS]
    by_cases h : pk = k
    · subst h
      rw [if_pos rfl]
      constructor
      · intro hx
        exact absurd hx (Option.some_ne_none pv)
      · intro hmem
        exact absurd (by rw [List.map_cons]; exact List.mem_cons_self _ _) hmem
    · rw [if_neg h, ih]
      simp only [List.map_cons, List.mem_cons]
      constructor
      · intro hnm hor
        rcases hor with h1 | h2
        · exact h h1.symm
        · exact hnm h2
      · intro hnm hm
        exact hnm (Or.inr hm)

theorem lookupS_append_cases {α : Type} {l l' : List (Str × α)} {k : Str} {v : α}
    (h : lookupS (l ++ l') k = some v) :
    lookupS l k = some v ∨ (lookupS l k = none ∧ lookupS l' k = some v) := by
  induction l with
  | nil => exact Or.inr ⟨rfl, h⟩
  | cons p t ih =>
    obtain ⟨pk, pv⟩ := p
    rw [List.cons_append, lookupS] at h
    rw [lookupS]
    split at h
    · rename_i hpk
      rw [if_pos hpk]
      exact Or.inl h
    · rename_i hpk
      rw [if_neg hpk]
      exact ih h

/-- The correlation fold with a correct cache produces exactly the rows of the
direct (cache-free) specification, and its call trace stays duplicate-free. -/
theorem processLoop_cached (pdf : Str) (props anots circ : List (Str × Str)) :
    ∀ (folios : List Str) (cache : List (Str × Str)) (rows : List Row)
      (nf calls : List Str),
      (∀ a e, lookupS cache a = some e →
        e = extract_escritura_from_anotacion pdf a) →
      calls = cache.map Prod.fst →
      (cache.map Prod.fst).Nodup →
      (processLoop pdf props anots circ folios cache rows nf calls).1 =
        rows ++ folios.map (rowSpecDirect pdf props anots circ) ∧
      (processLoop pdf props anots circ folios cache rows nf calls).2.2.2.Nodup := by
  intro folios
  induction folios with
  | nil =>
    intro cache rows nf calls hc hcalls hnd
    rw [processLoop]
    exact ⟨by simp, by rw [hcalls]; exact hnd⟩
  | cons folio rest ih =>
    intro cache rows nf calls hc hcalls hnd
    rw [processLoop]
    dsimp only
    rw [List.map_cons]
    cases hprops : lookupS props folio with
    | none =>
      dsimp only
      have hrow : rowSpecDirect pdf props anots circ folio =
          ("NO ENCONTRADO".toList, (lookupS circ folio).getD [], folio, []) := by
        rw [rowSpecDirect, hprops]
      refine ⟨?_, (ih _ _ _ _ hc hcalls hnd).2⟩
      rw [(ih _ _ _ _ hc hcalls hnd).1, hrow]
      simp
    | some name =>
      dsimp only
      by_cases han : ((lookupS anots folio).getD []).isEmpty = true
      · rw [if_pos han]
        have hrow : rowSpecDirect pdf props anots circ folio =
            (name, (lookupS circ folio).getD [], folio, []) := by
          rw [rowSpecDirect, hprops]
          dsimp only
          rw [if_pos han]
        refine ⟨?_, (ih _ _ _ _ hc hcalls hnd).2⟩
        rw [(ih _ _ _ _ hc hcalls hnd).1, hrow]
        simp
      · rw [if_neg han]
        have hrow : rowSpecDirect pdf props anots circ folio =
            (name, (lookupS circ folio).getD [], folio,
              extract_escritura_from_anotacion pdf
                ((lookupS anots folio).getD [])) := by
          rw [rowSpecDirect, hprops]
          dsimp only
          rw [if_neg han]
        cases hcache : lookupS cache ((lookupS anots folio).getD []) with
        | some e =>
          dsimp only
          have he : e = extract_escritura_from_anotacion pdf
              ((lookupS anots folio).getD []) := hc _ _ hcache
          refine ⟨?_, (ih _ _ _ _ hc hcalls hnd).2⟩
          rw [(ih _ _ _ _ hc hcalls hnd).1, hrow, ← he]
          simp
        | none =>
          dsimp only
          have hstep := fun hc2 hcalls2 hnd2 => ih
            (cache ++ [((lookupS anots folio).getD [],
              extract_escritura_from_anotacion pdf ((lookupS anots folio).getD []))])
            (rows ++ [(name, (lookupS circ folio).getD [], folio,
              extract_escritura_from_anotacion pdf ((lookupS anots folio).getD []))])
            nf (calls ++ [(lookupS anots folio).getD []]) hc2 hcalls2 hnd2
          refine ?_
          have hmain := hstep ?_ ?_ ?_
          · refine ⟨?_, hmain.2⟩
            rw [hmain.1, hrow]
            simp
          · intro a e hae
            rcases lookupS_append_cases hae with hin | ⟨-, hone⟩
            · exact hc _ _ hin
            · rw [lookupS] at hone
              split at hone
              · rename_i heqa
                obtain rfl := Option.some.inj hone
                rw [heqa]
              · exact absurd hone (by simp [lookupS])
          · rw [hcalls]
            simp
          · rw [List.map_append, List.nodup_append]
            refine ⟨hnd, List.nodup_singleton _, ?_⟩
            intro x hx hx2
            simp only [List.map_cons, List.map_nil, List.mem_singleton] at hx2
            subst hx2
            exact (lookupS_none_iff.1 hcache) hx

theorem parseDD_sound {s a : Str} {c : Char} {r : Str}
    (h : parseDD s = some (a, c, r)) :
    1 ≤ a.length ∧ a.length ≤ 2 ∧ a.all isDig = true ∧ isDateSep c = true ∧
      a ++ c :: r = s := by
  rcases s with - | ⟨x, - | ⟨y, - | ⟨z, t⟩⟩⟩
  · simp [parseDD] at h
  · simp [parseDD] at h
  · simp only [parseDD] at h
    split at h
    · rename_i hcond
      simp only [Option.some.injEq, Prod.mk.injEq] at h
      obtain ⟨rfl, rfl, rfl⟩ := h
      simp only [Bool.and_eq_true] at hcond
      exact ⟨by simp, by simp, by simp [hcond.1], hcond.2, rfl⟩
    · exact absurd h (by simp)
  · simp only [parseDD] at h
    split at h
    · rename_i hcond
      simp only [Option.some.injEq, Prod.mk.injEq] at h
      obtain ⟨rfl, rfl, rfl⟩ := h
      simp only [Bool.and_eq_true] at hcond
      exact ⟨by simp, by simp, by simp [hcond.1.1, hcond.1.2], hcond.2, rfl⟩
    · split at h
      · rename_i hcond
        simp only [Option.some.injEq, Prod.mk.injEq] at h
        obtain ⟨rfl, rfl, rfl⟩ := h
        simp only [Bool.and_eq_true] at hcond
        exact ⟨by simp, by simp, by simp [hcond.1], hcond.2, rfl⟩
      · exact absurd h (by simp)

theorem parseDate_sound {s dt : Str} (h : parseDate s = some dt) :
    DateShape dt ∧ ∃ r, dt ++ r = s := by
  rw [parseDate] at h
  cases h1 : parseDD s with
  | none => rw [h1] at h; exact absurd h (by simp)
  | some t1 =>
    obtain ⟨a, c1, r1⟩ := t1
    rw [h1] at h
    simp only at h
    cases h2 : parseDD r1 with
    | none => rw [h2] at h; exact absurd h (by simp)
    | some t2 =>
      obtain ⟨b, c2, r2⟩ := t2
      rw [h2] at h
      simp only at h
      split at h
      · rename_i hcond
        simp only [Bool.and_eq_true, decide_eq_true_eq] at hcond
        simp only [Option.some.injEq] at h
        obtain rfl := h
        obtain ⟨ha1, ha2, ha3, hs1, he1⟩ := parseDD_sound h1
        obtain ⟨hb1, hb2, hb3, hs2, he2⟩ := parseDD_sound h2
        constructor
        · exact ⟨a, c1, b, c2, r2.take 4, rfl, ha1, ha2, ha3, hs1,
            hb1, hb2, hb3, hs2, hcond.1, hcond.2⟩
        · refine ⟨r2.drop 4, ?_⟩
          rw [← he1, ← he2]
          simp only [List.append_assoc, List.cons_append, List.append_cancel_left_eq,
            List.cons.injEq, true_and]
          rw [List.take_append_drop]
      · exact absurd h (by simp)

theorem ciStarts_upper_take {pat s : Str} (h : ciStarts pat s = true) :
    upperPy (s.take pat.length) = pat := by
  rw [ciStarts] at h
  obtain ⟨t, ht⟩ := List.isPrefixOf_iff_prefix.1 h
  rw [upperPy] at ht ⊢
  rw [List.map_take, ← ht, List.take_left]

theorem parseKwDate_sound {kw r4 tl : Str} (h : parseKwDate kw r4 = some tl) :
    ∃ k w3 dt r, tl = k ++ w3 ++ dt ∧ tl ++ r = r4 ∧ upperPy k = kw ∧
      w3 ≠ [] ∧ w3.all isWs = true ∧ DateShape dt := by
  rw [parseKwDate] at h
  split at h
  · rename_i hstart
    simp only at h
    split at h
    · exact absurd h (by simp)
    · rename_i hw3
      cases hd : parseDate ((r4.drop kw.length).dropWhile isWs) with
      | none => rw [hd] at h; exact absurd h (by simp)
      | some dt =>
        rw [hd] at h
        simp only [Option.some.injEq] at h
        obtain rfl := h
        obtain ⟨hshape, rr, hrr⟩ := parseDate_sound hd
        refine ⟨r4.take kw.length, (r4.drop kw.length).takeWhile isWs, dt, rr,
          rfl, ?_, ciStarts_upper_take hstart, ?_, List.all_takeWhile, hshape⟩
        · simp only [List.append_assoc]
          rw [hrr, List.takeWhile_append_dropWhile, List.take_append_drop]
        · intro hx
          rw [hx] at hw3
          exact hw3 rfl
  · exact absurd h (by simp)

theorem parseEscritura_sound {s g : Str} (h : parseEscritura s = some g) :
    EscrituraShape g ∧ ∃ r, g ++ r = s := by
  rw [parseEscritura] at h
  split at h
  · rename_i hstart
    simp only at h
    split at h
    · exact absurd h (by simp)
    · rename_i hw1
      split at h
      · exact absurd h (by simp)
      · rename_i hd
        split at h
        · exact absurd h (by simp)
        · rename_i hw2
          have hupper : upperPy (s.take 9) = "ESCRITURA".toList := by
            have h9 : ("ESCRITURA".toList : Str).length = 9 := by decide
            have := ciStarts_upper_take hstart
            rw [h9] at this
            exact this
          cases hkw : parseKwDate "DEL".toList
              ((((s.drop 9).dropWhile isWs).dropWhile isDig).dropWhile isWs) with
          | some tail =>
            rw [hkw] at h
            simp only [Option.some.injEq] at h
            obtain rfl := h
            obtain ⟨k, w3, dt, rr, htl, hta, hup, hw3ne, hw3all, hdate⟩ :=
              parseKwDate_sound hkw
            constructor
            · refine ⟨s.take 9, (s.drop 9).takeWhile isWs,
                ((s.drop 9).dropWhile isWs).takeWhile isDig,
                (((s.drop 9).dropWhile isWs).dropWhile isDig).takeWhile isWs,
                k, w3, dt, ?_, hupper, ?_, List.all_takeWhile, ?_,
                List.all_takeWhile, ?_, List.all_takeWhile, Or.inl hup,
                hw3ne, hw3all, hdate⟩
              · rw [htl]; simp [List.append_assoc]
              · intro hx; rw [hx] at hw1; exact hw1 rfl
              · intro hx; rw [hx] at hd; exact hd rfl
              · intro hx; rw [hx] at hw2; exact hw2 rfl
            · refine ⟨rr, ?_⟩
              simp only [List.append_assoc]
              rw [hta, List.takeWhile_append_dropWhile,
                List.takeWhile_append_dropWhile, List.takeWhile_append_dropWhile,
                List.take_append_drop]
          | none =>
            rw [hkw] at h
            cases hkw2 : parseKwDate "DE".toList
                ((((s.drop 9).dropWhile isWs).dropWhile isDig).dropWhile isWs) with
            | none => rw [hkw2] at h; exact absurd h (by simp)
            | some tail =>
              rw [hkw2] at h
              simp only [Option.some.injEq] at h
              obtain rfl := h
              obtain ⟨k, w3, dt, rr, htl, hta, hup, hw3ne, hw3all, hdate⟩ :=
                parseKwDate_sound hkw2
              constructor
              · refine ⟨s.take 9, (s.drop 9).takeWhile isWs,
                  ((s.drop 9).dropWhile isWs).takeWhile isDig,
                  (((s.drop 9).dropWhile isWs).dropWhile isDig).takeWhile isWs,
                  k, w3, dt, ?_, hupper, ?_, List.all_takeWhile, ?_,
                  List.all_takeWhile, ?_, List.all_takeWhile, Or.inr hup,
                  hw3ne, hw3all, hdate⟩
                · rw [htl]; simp [List.append_assoc]
                · intro hx; rw [hx] at hw1; exact hw1 rfl
                · intro hx; rw [hx] at hd; exact hd rfl
                · intro hx; rw [hx] at hw2; exact hw2 rfl
              · refine ⟨rr, ?_⟩
                simp only [List.append_assoc]
                rw [hta, List.takeWhile_append_dropWhile,
                  List.takeWhile_append_dropWhile, List.takeWhile_append_dropWhile,
                  List.take_append_drop]
  · exact absurd h (by simp)

theorem escAt_sound {s g : Str} (h : escAt s = some g) :
    EscrituraShape g ∧ g <:+: s := by
  rw [escAt] at h
  split at h
  · obtain ⟨hshape, r, hr⟩ := parseEscritura_sound h
    refine ⟨hshape, ?_⟩
    have hpre : g <+: (s.drop 4).dropWhile isWs := ⟨r, hr⟩
    exact hpre.isInfix.trans
      (((List.dropWhile_suffix isWs).trans (List.drop_suffix 4 s)).isInfix)
  · exact absurd h (by simp)

theorem charUpper_ws {c : Char} (h : isWs c = true) : charUpper c = c := by
  simp only [isWs, Bool.or_eq_true, decide_eq_true_eq] at h
  rcases h with ((((h | h) | h) | h) | h) | h <;> subst h <;> decide

theorem not_isWs_of_isDig {c : Char} (h : isDig c = true) : isWs c = false := by
  cases hw : isWs c
  · rfl
  · exfalso
    simp only [isWs, Bool.or_eq_true, decide_eq_true_eq] at hw
    rcases hw with ((((hw | hw) | hw) | hw) | hw) | hw <;> subst hw <;>
      simp [isDig] at h

theorem headD_append_left {xs ys : Str} {d : Char} (h : xs ≠ []) :
    (xs ++ ys).headD d = xs.headD d := by
  cases xs with
  | nil => exact absurd rfl h
  | cons c t => rfl

/-- `strip` fixes a list whose first and last characters are not whitespace. -/
theorem strip_eq_self {g : Str} (hh : isWs (g.headD 'x') = false)
    (hl : isWs (g.reverse.headD 'x') = false) : strip g = g := by
  rw [strip]
  have h1 : g.dropWhile isWs = g := by
    cases g with
    | nil => rfl
    | cons c t =>
      rw [List.dropWhile_cons]
      simp only [List.headD_cons] at hh
      simp [hh]
  rw [h1]
  have h2 : g.reverse.dropWhile isWs = g.reverse := by
    cases hr : g.reverse with
    | nil => rfl
    | cons c t =>
      rw [hr] at hl
      rw [List.dropWhile_cons]
      simp only [List.headD_cons] at hl
      simp [hl]
  rw [h2, List.reverse_reverse]

theorem escriturashape_head {g : Str} (h : EscrituraShape g) :
    isWs (g.headD 'x') = false := by
  obtain ⟨e, w1, d, w2, k, w3, dt, hg, hup, -⟩ := h
  have hne : e ≠ [] := by
    intro hx
    rw [hx] at hup
    exact absurd hup.symm (by decide)
  cases e with
  | nil => exact absurd rfl hne
  | cons e0 e' =>
    have h0 : charUpper e0 = 'E' := by
      rw [upperPy, List.map_cons] at hup
      have := List.head_eq_of_cons_eq hup
      simpa using this
    subst hg
    rw [List.append_assoc, List.append_assoc, List.append_assoc,
      List.append_assoc, List.append_assoc]
    rw [headD_append_left (by simp : (e0 :: e') ≠ [])]
    cases hw : isWs e0
    · simpa using hw
    · exfalso
      rw [charUpper_ws hw] at h0
      subst h0
      exact absurd hw (by decide)

theorem escriturashape_last {g : Str} (h : EscrituraShape g) :
    isWs (g.reverse.headD 'x') = false := by
  obtain ⟨e, w1, d, w2, k, w3, dt, hg, -, -, -, -, -, -, -, -, -, -, hdate⟩ := h
  obtain ⟨a, c1, b, c2, y, hdt, -, -, -, -, -, -, -, -, hy4, hyd⟩ := hdate
  have hyne : y ≠ [] := by
    intro hx
    rw [hx] at hy4
    simp at hy4
  subst hg
  subst hdt
  rw [List.reverse_append, headD_append_left (by simp)]
  rw [List.reverse_append, headD_append_left (by simp)]
  rw [List.reverse_cons, headD_append_left (by simp [hyne])]
  have hmem : y.reverse.headD 'x' ∈ y.reverse := by
    cases hyr : y.reverse with
    | nil => exact absurd (by simpa using congrArg List.length hyr) (by simp [hyne])
    | cons c t => simp
  rw [List.mem_reverse] at hmem
  have hdig : isDig (y.reverse.headD 'x') = true := by
    rw [List.all_eq_true] at hyd
    exact hyd _ hmem
  exact not_isWs_of_isDig hdig

/-- C6: the deed extractor returns the empty string when no annotation marker
for the requested number exists, and otherwise either the empty string (no
citation in the block) or a citation of the shape
`ESCRITURA <digits> (DEL|DE) <date>` that is contained, as a substring, in the
block slice that ends at the next annotation marker — content of later blocks
can never be returned.  The embedding is total, so no exception is possible. -/
theorem c6_deed_extraction :
    ∀ (text num : Str),
      (searchIdx (anotMarkerAt num) text = none →
        extract_escritura_from_anotacion text num = []) ∧
      (extract_escritura_from_anotacion text num = [] ∨
        (EscrituraShape (extract_escritura_from_anotacion text num) ∧
          (extract_escritura_from_anotacion text num) <:+:
            anotacionSlice text num)) := by
  intro text num
  constructor
  · intro h
    rw [extract_escritura_from_anotacion, h]
  · rw [extract_escritura_from_anotacion]
    cases h1 : searchIdx (anotMarkerAt num) text with
    | none => exact Or.inl rfl
    | some start =>
      dsimp only
      cases h2 : reSearch escAt (anotacionSlice text num) with
      | none => exact Or.inl rfl
      | some g =>
        right
        obtain ⟨suf, hsuf, hm⟩ := reSearch_some h2
        obtain ⟨hshape, hinfix⟩ := escAt_sound hm
        have hid : strip g = g :=
          strip_eq_self (escriturashape_head hshape) (escriturashape_last hshape)
        dsimp only
        rw [hid]
        exact ⟨hshape, hinfix.trans hsuf.isInfix⟩

/-- Witness for C6 at a text with no annotation marker. -/
theorem c6_deed_extraction_witness :
    searchIdx (anotMarkerAt "003".toList) "SIN MARCADOR".toList = none ∧
    extract_escritura_from_anotacion "SIN MARCADOR".toList "003".toList = [] :=
  ⟨by decide,
   (c6_deed_extraction "SIN MARCADOR".toList "003".toList).1 (by decide)⟩

/-- C9: within one correlation run the deed cache is observationally
transparent — the produced rows coincide with the specification-side rows in
which each deed is computed directly by `extract_escritura_from_anotacion` on
the row's annotation number — and the trace of underlying deed scans contains
no duplicate annotation number (at most one scan per distinct annotation). -/
theorem c9_deed_cache_transparent :
    ∀ mat pdf : Str,
      (process_properties mat pdf).1 = process_rows_spec mat pdf ∧
      (processCalls mat pdf).Nodup := by
  intro mat pdf
  have h := processLoop_cached pdf (extract_properties_from_pdf pdf).1
    (extract_properties_from_pdf pdf).2 (extract_folios_from_matriculas mat).1
    (extract_folios_from_matriculas mat).2 [] [] [] []
    (by intro a e hx; exact absurd hx (by simp [lookupS])) rfl (by simp)
  exact ⟨by rw [process_properties, process_rows_spec]; exact h.1.trans (by simp),
    h.2⟩

end Folios
